import Mathlib

/-!
# A verification development for the `w3g` replay decoder

This file gives a shallow embedding, in Lean 4, of the core decoding
pipeline of `src/w3g/w3gfile.py` (Warcraft III replay files), together
with theorems settling a fixed list of claims about it.

Bytes are modelled as `Nat` values in `[0, 255]` inside `List Nat`;
Python's unbounded integers are `Nat`/`Int`; fallible code (exceptions)
returns `Option`/`Except`.  Every definition is translated from the
Python source; the one definition that is not (`parse_actions`) carries
a doc comment saying so, because the method it models is referenced by
the source but absent from it.
-/

namespace W3G

/-- `WORD = 2` bytes, as in the source. -/
def WORD : Nat := 2

/-- `DWORD = 4` bytes, as in the source. -/
def DWORD : Nat := 4

/-- `b2i`: little-endian interpretation of a byte string as an unsigned
integer (`int.from_bytes(b, 'little')`); the empty byte string gives 0. -/
def b2i (b : List Nat) : Nat :=
  b.foldr (fun x acc => x + 0x100 * acc) 0

/-- Python slice `data[a:b]` (for `0 ≤ a ≤ b`), clamped at the end of the
list as Python slices are. -/
def slice (data : List Nat) (a b : Nat) : List Nat :=
  (data.take b).drop a

/-- `bytes.find(x)` helper: index of the first occurrence, if any. -/
def pyFindAux (b : List Nat) (x : Nat) : Option Nat :=
  match b with
  | [] => none
  | y :: rest => if y = x then some 0 else (pyFindAux rest x).map (· + 1)

/-- Python `bytes.find(x)`: index of the first occurrence or `-1`. -/
def pyFind (b : List Nat) (x : Nat) : Int :=
  match pyFindAux b x with
  | some i => (i : Int)
  | none => -1

/-- Python slice `b[:i]` with a possibly negative `i` (a negative index
counts from the end; `Nat` subtraction clamps at 0 exactly as Python
clamps an out-of-range negative start). -/
def pySliceTo (b : List Nat) (i : Int) : List Nat :=
  if i < 0 then b.take (b.length - i.natAbs) else b.take i.toNat

/-- Strict UTF-8 decoding of a byte list into characters, as performed by
Python's `bytes.decode('utf-8')`: rejects overlong encodings, surrogates
(U+D800–U+DFFF) and code points above U+10FFFF.  `none` models
`UnicodeDecodeError` (the spec's `EncodingError`). -/
def utf8DecodeAux : List Nat → Option (List Char)
  | [] => some []
  | b :: rest =>
    if b < 0x80 then
      (utf8DecodeAux rest).map (Char.ofNat b :: ·)
    else if b < 0xC2 then
      none
    else if b ≤ 0xDF then
      match rest with
      | c1 :: rest2 =>
        if 0x80 ≤ c1 ∧ c1 ≤ 0xBF then
          (utf8DecodeAux rest2).map (Char.ofNat ((b - 0xC0) * 0x40 + (c1 - 0x80)) :: ·)
        else none
      | [] => none
    else if b ≤ 0xEF then
      match rest with
      | c1 :: c2 :: rest3 =>
        let lo := if b = 0xE0 then 0xA0 else 0x80
        let hi := if b = 0xED then 0x9F else 0xBF
        if lo ≤ c1 ∧ c1 ≤ hi ∧ 0x80 ≤ c2 ∧ c2 ≤ 0xBF then
          (utf8DecodeAux rest3).map
            (Char.ofNat ((b - 0xE0) * 0x1000 + (c1 - 0x80) * 0x40 + (c2 - 0x80)) :: ·)
        else none
      | _ => none
    else if b ≤ 0xF4 then
      match rest with
      | c1 :: c2 :: c3 :: rest4 =>
        let lo := if b = 0xF0 then 0x90 else 0x80
        let hi := if b = 0xF4 then 0x8F else 0xBF
        if lo ≤ c1 ∧ c1 ≤ hi ∧ 0x80 ≤ c2 ∧ c2 ≤ 0xBF ∧ 0x80 ≤ c3 ∧ c3 ≤ 0xBF then
          (utf8DecodeAux rest4).map
            (Char.ofNat ((b - 0xF0) * 0x40000 + (c1 - 0x80) * 0x1000 +
                         (c2 - 0x80) * 0x40 + (c3 - 0x80)) :: ·)
        else none
      | _ => none
    else none

/-- UTF-8 decoding into a `String` (`none` = `UnicodeDecodeError`). -/
def utf8Decode (l : List Nat) : Option String :=
  (utf8DecodeAux l).map fun cs => ⟨cs⟩

/-- `nulltermstr(b)` from the source: `i = b.find(NULL)`, decode `b[:i]`
as UTF-8 and return the string together with `i` (note: `i`, not `i + 1`;
when no zero byte occurs, `find` gives `-1` and `b[:-1]` drops the last
byte).  `none` models the `UnicodeDecodeError` escaping the call. -/
def nulltermstr (b : List Nat) : Option (String × Int) :=
  let i := pyFind b 0
  (utf8Decode (pySliceTo b i)).map fun s => (s, i)

/-- `blizdecomp`'s while loop: `b` is the remaining raw bytes, `pos` the
current raw position, `mask` the mask byte of the current run (`None`
before the first iteration), `acc` the output accumulated so far in
reverse.  `none` models the `IndexError` raised when the raw bytes run
out before a zero byte (and the unreachable `TypeError` were the mask
ever used unset). -/
def blizdecompAux : List Nat → Nat → Option Nat → List Nat → Option (List Nat × Nat)
  | [], _, _, _ => none
  | x :: rest, pos, mask, acc =>
    if x = 0 then some (acc.reverse, pos)
    else if pos % 8 = 0 then blizdecompAux rest (pos + 1) (some x) acc
    else
      match mask with
      | some m =>
        if m &&& (1 <<< (pos % 8)) = 0 then
          blizdecompAux rest (pos + 1) (some m) ((x - 1) :: acc)
        else
          blizdecompAux rest (pos + 1) (some m) (x :: acc)
      | none => none

/-- `blizdecomp(b)` from the source: the "wacky blizzard decompression",
returning the adjusted bytes and the raw position reached (the index of
the terminating zero byte, which is consumed by the caller separately). -/
def blizdecomp (b : List Nat) : Option (List Nat × Nat) :=
  blizdecompAux b 0 none []

/-- `blizdecode(b)` from the source: `blizdecomp` followed by UTF-8
decoding of the output bytes. -/
def blizdecode (b : List Nat) : Option (String × Nat) :=
  (blizdecomp b).bind fun dl => (utf8Decode dl.1).map fun s => (s, dl.2)

/-- `CHAT_MODES` table from the source. -/
def CHAT_MODES (m : Nat) : Option String :=
  if m = 0x00 then some "all"
  else if m = 0x01 then some "allies"
  else if m = 0x02 then some "observers"
  else none

/-- `LeftGame.remote_results` table (`none` models a `KeyError`). -/
def remote_results (res : Nat) : Option String :=
  if res = 0x01 then some "left"
  else if res = 0x07 then some "left"
  else if res = 0x08 then some "lost"
  else if res = 0x09 then some "won"
  else if res = 0x0A then some "draw"
  else if res = 0x0B then some "left"
  else none

/-- `LeftGame.local_not_last_results` table (`none` models a `KeyError`). -/
def local_not_last_results (res : Nat) : Option String :=
  if res = 0x01 then some "disconnected"
  else if res = 0x07 then some "lost"
  else if res = 0x08 then some "lost"
  else if res = 0x09 then some "won"
  else if res = 0x0A then some "draw"
  else if res = 0x0B then some "lost"
  else none

/-- `LeftGame.local_last_results` table (`none` models a `KeyError`). -/
def local_last_results (res : Nat) : Option String :=
  if res = 0x01 then some "disconnected"
  else if res = 0x08 then some "lost"
  else if res = 0x09 then some "won"
  else none

/-- The fields of a `LeftGame` event other than its timestamp.  `next` is
the source's mutable `next` reference, modelled as the index (in the
event sequence) of the following `LeftGame` event, `none` while no such
event has been parsed. -/
structure LeftGameData where
  player_id : Nat
  closedby : String
  resultflag : Nat
  inc : Bool
  unknownflag : Nat
  next : Option Nat
deriving DecidableEq, Repr

/-- `LeftGame.result` from the source: resolves the human-readable
outcome from the closer classification, the raw result code, the
is-consecutive flag and the position in the disconnect chain.  `none`
models the `KeyError` raised on a result code absent from the table
consulted. -/
def LeftGameData.result (e : LeftGameData) : Option String :=
  if e.closedby = "remote" then remote_results e.resultflag
  else if e.closedby = "local" then
    if e.next = none then
      if e.resultflag = 0x07 ∨ e.resultflag = 0x0B then
        some (if e.inc then "won" else "lost")
      else local_last_results e.resultflag
    else local_not_last_results e.resultflag
  else some "left"

/-- The fields of the source's `Player` namedtuple used by the id
lookups, with the namedtuple's default values. -/
structure Player where
  id : Int := -1
  name : String := ""
  race : String := ""
  ishost : Bool := false
  runtime : Int := -1
deriving DecidableEq, Repr

/-- The fields of the source's `SlotRecord` namedtuple used by the id
lookups, with the namedtuple's default values. -/
structure SlotRecord where
  player_id : Int := -1
  status : String := "empty"
  ishuman : Bool := false
  team : Int := -1
  color : String := "red"
  race : String := "none"
  handicap : Nat := 100
deriving DecidableEq, Repr

/-- `File.player(pid)` from the source: a fast path trying
`players[pid]` when the index is in range, then a linear scan for a
player whose `id` equals `pid`, and — only when the scan finds none —
`slot_records[pid]`, indexed positionally.  `none` models the
`IndexError` when `pid` is not a valid position in the slot-record
list.  (The `lru_cache` decorator only memoizes this pure function.) -/
def filePlayer (players : List Player) (slot_records : List SlotRecord)
    (pid : Nat) : Option (Player ⊕ SlotRecord) :=
  let fast : Option Player :=
    match players[pid]? with
    | some p => if p.id = (pid : Int) then some p else none
    | none => none
  match fast with
  | some p => some (.inl p)
  | none =>
    match players.find? (fun p => p.id == (pid : Int)) with
    | some p => some (.inl p)
    | none => (slot_records[pid]?).map .inr

/-- `File.player_name(pid)` from the source: `"observer"` when the
lookup yields a `SlotRecord`, the player's name otherwise. -/
def filePlayerName (players : List Player) (slot_records : List SlotRecord)
    (pid : Nat) : Option String :=
  match filePlayer players slot_records pid with
  | some (.inl p) => some p.name
  | some (.inr _) => some "observer"
  | none => none

/-- The slot-record sizing fragment of `File._parse_startup` (lines
462–465): `recsize = int((nstartbytes - DWORD - 3) / nrecs)` — Python's
float division truncated toward zero by `int`, modelled by `Int.tdiv` —
followed by `assert 7 <= recsize <= 9`.  `none` models the
`ZeroDivisionError` (for `nrecs = 0`) or the failed assertion. -/
def slotRecordSizing (nstartbytes nrecs : Nat) : Option Int :=
  if nrecs = 0 then none
  else
    let recsize := Int.tdiv ((nstartbytes : Int) - (DWORD : Int) - 3) (nrecs : Int)
    if 7 ≤ recsize ∧ recsize ≤ 9 then some recsize else none

/-- The per-record truncated quotient computed by the source. -/
def slotRecsize (nstartbytes nrecs : Nat) : Int :=
  Int.tdiv ((nstartbytes : Int) - (DWORD : Int) - 3) (nrecs : Int)

/-- The loop body of `File._read_blocks`: `n` blocks remain, `f` is the
byte stream from the current file position, `acc` the decompressed data
so far.  Each block is a 2-byte compressed size, a 2-byte declared
decompressed size, 4 skipped bytes, then the compressed payload.
`inflate` abstracts `zlib.decompress`, with `none` for a `zlib.error`
on malformed DEFLATE data; a length mismatch raises the same class, so
both give `none` overall. -/
def read_blocks_aux (inflate : List Nat → Option (List Nat)) :
    Nat → List Nat → List Nat → Option (List Nat)
  | 0, _, acc => some acc
  | n + 1, f, acc =>
    let block_size := b2i (f.take WORD)
    let block_size_decomp := b2i (slice f WORD (WORD + WORD))
    let raw := (f.drop (WORD + WORD + DWORD)).take block_size
    match inflate raw with
    | none => none
    | some dat =>
      if dat.length = block_size_decomp then
        read_blocks_aux inflate n (f.drop (WORD + WORD + DWORD + block_size)) (acc ++ dat)
      else none

/-- `File._read_blocks` from the declared block count on: concatenates
the per-block decompressed payloads in block order. -/
def read_blocks (inflate : List Nat → Option (List Nat)) (nblocks : Nat)
    (f : List Nat) : Option (List Nat) :=
  read_blocks_aux inflate nblocks f []

/-- The framing of the first `n` blocks: each block's compressed payload
paired with its declared decompressed length, in block order. -/
def blocksOf : Nat → List Nat → List (List Nat × Nat)
  | 0, _ => []
  | n + 1, f =>
    ((f.drop (WORD + WORD + DWORD)).take (b2i (f.take WORD)),
      b2i (slice f WORD (WORD + WORD))) ::
      blocksOf n (f.drop (WORD + WORD + DWORD + b2i (f.take WORD)))

/-- A framed block decompresses successfully to its declared length. -/
def goodBlock (inflate : List Nat → Option (List Nat)) (blk : List Nat × Nat) : Prop :=
  ∃ dat, inflate blk.1 = some dat ∧ dat.length = blk.2

/-- The concatenation, in block order, of the decompressed payloads. -/
def concatDecomp (inflate : List Nat → Option (List Nat))
    (blks : List (List Nat × Nat)) : List Nat :=
  blks.flatMap fun blk => (inflate blk.1).getD []

/-- The decoded event variants produced by the event-stream parser, each
carrying the running clock's value at creation (`Event.__init__`). -/
inductive Event where
  | chat (time : Nat) (player_id : Nat) (mode : String) (msg : String)
  | leftGame (time : Nat) (lg : LeftGameData)
  | countdown (time : Nat) (mode : String) (secs : Nat)
  | pause (time : Nat) (player_id : Nat)
deriving DecidableEq, Repr

/-- The timestamp an event was created with. -/
def Event.time : Event → Nat
  | .chat t _ _ _ => t
  | .leftGame t _ => t
  | .countdown t _ _ => t
  | .pause t _ => t

/-- The mutable parse state of `File._parse_blocks`: the event list, the
running clock `_clock`, and `_lastleft` as the index (in `events`) of
the most recent `LeftGame` event. -/
structure PState where
  events : List Event
  clock : Nat
  lastleft : Option Nat
deriving DecidableEq, Repr

/-- Errors aborting the parse.  `unknownBlock` is the `KeyError` on the
dispatch table (the spec's `UnknownBlockError`); `index` an
`IndexError` on a too-short record; `encoding` a `UnicodeDecodeError`
(the spec's `EncodingError`); `fuel` is a modelling artifact,
unreachable whenever the loop is run with more fuel than bytes, since
every record consumes at least one byte. -/
inductive PErr where
  | unknownBlock (tag : Nat)
  | index
  | encoding
  | fuel
deriving DecidableEq, Repr

/-- Set the `next` reference of the `LeftGame` event at index `i`
(`self._lastleft.next = e` in the source, with events addressed by
index instead of by object identity). -/
def setNextAt : List Event → Nat → Nat → List Event
  | [], _, _ => []
  | e :: rest, 0, k =>
    (match e with
     | .leftGame t lg => .leftGame t { lg with next := some k }
     | other => other) :: rest
  | e :: rest, i + 1, k => e :: setNextAt rest i k

/-- Modelled from the spec: the source calls `File._parse_actions` on
each action sub-record, but no method of that name exists anywhere in
the repository.  Per the spec, only a minimal subset of in-game actions
is modelled — a single-byte pause tag (`0x01`, the one entry of the
source's `ACTIONS` table) produces a `Pause` event stamped with the
current clock — and any other payload is opaque. -/
def parse_actions (st : PState) (player_id : Nat) : List Nat → PState
  | [] => st
  | aid :: rest =>
    if aid = 0x01 then
      parse_actions
        { st with events := st.events ++ [.pause st.clock player_id] } player_id rest
    else st

/-- The inner loop of `File._parse_time_slot` over the command data: a
1-byte player id, a 2-byte action-payload length `i`, the payload
itself, repeated until the command data is exhausted. -/
def parse_cmddata (st : PState) (cmd : List Nat) : PState :=
  match cmd with
  | [] => st
  | pid :: rest =>
    let i := b2i (rest.take WORD)
    let action_block := (rest.drop WORD).take i
    let st' := parse_actions st pid action_block
    parse_cmddata st' ((rest.drop WORD).drop i)
termination_by cmd.length
decreasing_by
  simp only [List.length_cons, List.length_drop]
  omega

/-- `File._parse_time_slot`: a 2-byte total length `n`, a 2-byte clock
delta, the embedded command data `data[5:n+3]`, then the clock advance;
consumes `n + 3` bytes. -/
def parse_time_slot (st : PState) (data : List Nat) : Except PErr (PState × Nat) :=
  let n := b2i (slice data 1 (1 + WORD))
  let dt := b2i (slice data (1 + WORD) (1 + WORD + WORD))
  let cmddata := slice data (1 + WORD + WORD) (n + 3)
  let st' := parse_cmddata st cmddata
  .ok ({ st' with clock := st'.clock + dt }, n + 3)

/-- `File._parse_chat`: a 1-byte player id, a 2-byte total length, a
1-byte delivery-mode flag (`0x10` ⇒ `"startup"`, no mode code read;
otherwise a 4-byte mode code mapped through `CHAT_MODES` or rendered as
`"player{code - 3}"`), then a null-terminated message; consumes
`n + 4` bytes. -/
def parse_chat (st : PState) (data : List Nat) : Except PErr (PState × Nat) :=
  match data[1]? with
  | none => .error .index
  | some player_id =>
    let n := b2i (slice data 2 (2 + WORD))
    match data[2 + WORD]? with
    | none => .error .index
    | some flags =>
      let modeOffset : String × Nat :=
        if flags = 0x10 then ("startup", 5)
        else
          let m := b2i (slice data 5 (5 + DWORD))
          ((CHAT_MODES m).getD ("player" ++ toString (m - 0x3)), 9)
      match nulltermstr (data.drop modeOffset.2) with
      | none => .error .encoding
      | some (msg, _) =>
        .ok ({ st with
                events := st.events ++ [.chat st.clock player_id modeOffset.1 msg] },
             n + 4)

/-- `File._parse_countdown`: a 4-byte mode code (`0` ⇒ `"running"`,
else `"over"`) and a 4-byte seconds value; consumes 9 bytes. -/
def parse_countdown (st : PState) (data : List Nat) : Except PErr (PState × Nat) :=
  let m := b2i (slice data 1 (1 + DWORD))
  let mode := if m = 0x00 then "running" else "over"
  let secs := b2i (slice data (1 + DWORD) (1 + DWORD + DWORD))
  .ok ({ st with events := st.events ++ [.countdown st.clock mode secs] }, 9)

/-- `File._parse_leave_game`: a 4-byte reason code, a 1-byte player id,
a 4-byte result code and a 4-byte sequence flag; the is-consecutive
flag `inc` compares the sequence flag with the previous disconnect
event's; the previous event's `next` reference is pointed at the new
event; consumes 14 bytes. -/
def parse_leave_game (st : PState) (data : List Nat) : Except PErr (PState × Nat) :=
  let reason := b2i (slice data 1 (1 + DWORD))
  match data[1 + DWORD]? with
  | none => .error .index
  | some player_id =>
    let res := b2i (slice data 6 (6 + DWORD))
    let unknownflag := b2i (slice data 10 (10 + DWORD))
    let inc : Bool :=
      match st.lastleft with
      | none => false
      | some i =>
        match st.events[i]? with
        | some (.leftGame _ lg) => unknownflag = lg.unknownflag + 1
        | _ => false
    let closedby :=
      if reason = 0x01 then "remote"
      else if reason = 0x0C then "local"
      else "unknown"
    let e : LeftGameData :=
      { player_id := player_id, closedby := closedby, resultflag := res,
        inc := inc, unknownflag := unknownflag, next := none }
    let idx := st.events.length
    let events1 := st.events ++ [Event.leftGame st.clock e]
    let events2 :=
      match st.lastleft with
      | none => events1
      | some i => setNextAt events1 i idx
    .ok ({ st with events := events2, lastleft := some idx }, 14)

/-- The dispatch table `_parsers` of `File._parse_blocks`, applied to
one tag byte: the per-tag decoders, the fixed-size skipped records, and
the `KeyError` (`UnknownBlockError`) on any other tag. -/
def dispatchStep (st : PState) (data : List Nat) (blockid : Nat) :
    Except PErr (PState × Nat) :=
  if blockid = 0x17 then parse_leave_game st data
  else if blockid = 0x1A then .ok (st, 5)
  else if blockid = 0x1B then .ok (st, 5)
  else if blockid = 0x1C then .ok (st, 5)
  else if blockid = 0x1E then parse_time_slot st data
  else if blockid = 0x1F then parse_time_slot st data
  else if blockid = 0x20 then parse_chat st data
  else if blockid = 0x22 then .ok (st, 6)
  else if blockid = 0x23 then .ok (st, 11)
  else if blockid = 0x2F then parse_countdown st data
  else .error (.unknownBlock blockid)

/-- The `while blockid != 0` loop of `File._parse_blocks`, fuelled: on
success the final state is paired with `none`; an aborted parse leaves
the state reached so far paired with the error (the events appended by
completed records).  Each record consumes at least one byte, so fuel
`data.length + 1` never runs out. -/
def parseLoop : Nat → PState → List Nat → PState × Option PErr
  | 0, st, _ => (st, some .fuel)
  | fuel + 1, st, data =>
    match data[0]? with
    | none => (st, some .index)
    | some blockid =>
      if blockid = 0 then (st, none)
      else
        match dispatchStep st data blockid with
        | .error e => (st, some e)
        | .ok (st', off) => parseLoop fuel st' (data.drop off)

/-- `File._parse_blocks` on the post-startup byte stream: fresh state
(`events = []`, `_clock = 0`, `_lastleft = None`), then the dispatch
loop. -/
def parse_blocks_run (data : List Nat) : PState × Option PErr :=
  parseLoop (data.length + 1) ⟨[], 0, none⟩ data

/-- The clock-monotonicity invariant of the parse state: event timestamps
are non-decreasing in sequence order and never exceed the running clock. -/
def ClockInv (st : PState) : Prop :=
  List.Pairwise (· ≤ ·) (st.events.map Event.time) ∧
  ∀ t ∈ st.events.map Event.time, t ≤ st.clock

/-- Testing one bit of a mask via a shifted one, as the source writes it,
agrees with `Nat.testBit`. -/
lemma and_one_shiftLeft_eq_zero_iff (m k : Nat) :
    m &&& (1 <<< k) = 0 ↔ Nat.testBit m k = false := by
  rw [Nat.shiftLeft_eq, one_mul, Nat.and_two_pow]
  have hpow : (2 : Nat) ^ k ≠ 0 := Nat.pos_iff_ne_zero.mp (Nat.pos_pow_of_pos k (by norm_num))
  rcases h : Nat.testBit m k <;> simp [h, hpow]

/-- `pyFindAux` finds exactly the first index at which the sought byte
occurs. -/
lemma pyFindAux_first (x : Nat) :
    ∀ (b : List Nat) (j : Nat), b[j]? = some x → (∀ k, k < j → b[k]? ≠ some x) →
      pyFindAux b x = some j := by
  intro b
  induction b with
  | nil => intro j hj _; simp at hj
  | cons y rest ih =>
    intro j hj hfirst
    cases j with
    | zero =>
      simp at hj
      simp [pyFindAux, hj]
    | succ j' =>
      have hy : y ≠ x := by
        have := hfirst 0 (Nat.succ_pos j')
        simpa using this
      have hrest : rest[j']? = some x := by simpa using hj
      have hfirst' : ∀ k, k < j' → rest[k]? ≠ some x := by
        intro k hk
        have := hfirst (k + 1) (Nat.succ_lt_succ hk)
        simpa using this
      simp [pyFindAux, hy, ih j' hrest hfirst']

/-- **C1.** For every decoded `LeftGame` event with closer `"local"`: if the
event has a following `LeftGame` event in the disconnect chain, its resolved
outcome is the local-not-last table entry for its result code; if it has no
following event, then for result codes `0x07` and `0x0B` the outcome is
`"won"` when its is-consecutive flag is true and `"lost"` otherwise, and for
any other result code it is the local-last table entry. -/
theorem leftGame_local_result_resolution (e : LeftGameData)
    (h : e.closedby = "local") :
    (∀ k, e.next = some k → e.result = local_not_last_results e.resultflag) ∧
    (e.next = none →
      ((e.resultflag = 0x07 ∨ e.resultflag = 0x0B) →
          e.result = some (if e.inc then "won" else "lost")) ∧
      (e.resultflag ≠ 0x07 → e.resultflag ≠ 0x0B →
          e.result = local_last_results e.resultflag)) := by
  have hres : e.result =
      (if e.next = none then
        if e.resultflag = 0x07 ∨ e.resultflag = 0x0B then
          some (if e.inc then "won" else "lost")
        else local_last_results e.resultflag
      else local_not_last_results e.resultflag) := by
    unfold LeftGameData.result
    rw [h, if_neg (by decide : ¬("local" : String) = "remote"), if_pos rfl]
  refine ⟨?_, ?_⟩
  · intro k hk
    rw [hres, hk]
    simp
  · intro hn
    refine ⟨?_, ?_⟩
    · intro hor
      rw [hres]
      simp [hn, hor]
    · intro h7 hB
      rw [hres]
      simp [hn, h7, hB]

/-- **C1 witness.** A concrete local-closed, chain-final event with result
code `0x07` and the is-consecutive flag set resolves to `"won"`. -/
theorem leftGame_local_result_resolution_witness :
    LeftGameData.result ⟨1, "local", 0x07, true, 5, none⟩ = some "won" :=
  (((leftGame_local_result_resolution ⟨1, "local", 0x07, true, 5, none⟩ rfl).2
      rfl).1 (Or.inl rfl)).trans (by decide)

/-- **C2 counterexample.** Decoding `[0x00, 0x69, 0x66, 0x6D, 0x6D, 0x70,
0x00]` yields `("", 0)`, not `("hello", 6)`: the raw byte `0x00` in mask
position is itself the first raw zero byte, and the zero check precedes the
mask handling, so decoding stops immediately. -/
theorem blizdecomp_zero_mask_byte_counterexample :
    blizdecode [0x00, 0x69, 0x66, 0x6D, 0x6D, 0x70, 0x00] = some ("", 0) ∧
    blizdecode [0x00, 0x69, 0x66, 0x6D, 0x6D, 0x70, 0x00] ≠ some ("hello", 6) := by
  constructor <;> decide

/-- **C2 (amended).** The obfuscation decoder is a deterministic function of
the raw bytes: decoding stops at the first raw zero byte (mask positions
included); in each run of 8 raw bytes a nonzero first byte is consumed as the
mask and not emitted; each other nonzero byte at position `p` is emitted
unchanged when bit `p % 8` of the mask is 1 and as the byte minus 1 when that
bit is 0; in particular decoding `[0x01, 0x69, 0x66, 0x6D, 0x6D, 0x70, 0x00]`
(a nonzero mask byte whose bits 1–5 are clear) yields `"hello"` with consumed
length 6. -/
theorem blizdecomp_mask_rules :
    (∀ (rest : List Nat) (pos : Nat) (mask : Option Nat) (acc : List Nat),
        blizdecompAux (0 :: rest) pos mask acc = some (acc.reverse, pos)) ∧
    (∀ (rest : List Nat) (pos : Nat) (mask : Option Nat) (acc : List Nat) (x : Nat),
        x ≠ 0 → pos % 8 = 0 →
        blizdecompAux (x :: rest) pos mask acc =
          blizdecompAux rest (pos + 1) (some x) acc) ∧
    (∀ (rest : List Nat) (pos m : Nat) (acc : List Nat) (x : Nat),
        x ≠ 0 → pos % 8 ≠ 0 →
        blizdecompAux (x :: rest) pos (some m) acc =
          blizdecompAux rest (pos + 1) (some m)
            ((if Nat.testBit m (pos % 8) then x else x - 1) :: acc)) ∧
    blizdecode [0x01, 0x69, 0x66, 0x6D, 0x6D, 0x70, 0x00] = some ("hello", 6) := by
  refine ⟨?_, ?_, ?_, by decide⟩
  · intro rest pos mask acc
    simp [blizdecompAux]
  · intro rest pos mask acc x hx hpos
    simp [blizdecompAux, hx, hpos]
  · intro rest pos m acc x hx hpos
    cases htb : Nat.testBit m (pos % 8) with
    | false =>
      have hz : m &&& (1 <<< (pos % 8)) = 0 :=
        (and_one_shiftLeft_eq_zero_iff m (pos % 8)).mpr htb
      simp [blizdecompAux, hx, hpos, hz]
    | true =>
      have hnz : ¬m &&& (1 <<< (pos % 8)) = 0 := fun hz => by
        simp [(and_one_shiftLeft_eq_zero_iff m (pos % 8)).mp hz] at htb
      simp [blizdecompAux, hx, hpos, hnz]

/-- **C2 (amended) witness.** One concrete emission step (byte `0x42` under a
zero mask bit is emitted as `0x41`) and the concrete decode of the amended
example. -/
theorem blizdecomp_mask_rules_witness :
    blizdecompAux [0x42, 0] 1 (some 0) [] = blizdecompAux [0] 2 (some 0) [0x41] ∧
    blizdecode [0x01, 0x69, 0x66, 0x6D, 0x6D, 0x70, 0x00] = some ("hello", 6) :=
  ⟨(blizdecomp_mask_rules.2.2.1 [0] 1 0 [] 0x42 (by decide) (by decide)).trans
      (by decide),
    blizdecomp_mask_rules.2.2.2⟩

/-- **C3 counterexample.** A section byte-count of 24 with 2 declared records
gives the non-integral quotient `17 / 2`, yet the source truncates it to 8
(which lies in `[7, 9]`) and succeeds instead of failing. -/
theorem slotRecordSizing_nonintegral_counterexample :
    ((24 : Int) - (DWORD : Int) - 3) % 2 ≠ 0 ∧ slotRecordSizing 24 2 = some 8 := by
  constructor <;> decide

/-- **C3 (amended).** The per-record size is derived as the truncation toward
zero of `(sectionByteCount - 7) / slotRecordCount`; parsing fails exactly when
this truncated quotient lies outside `[7, 9]` (a non-integral quotient is
truncated, not rejected); a section byte-count of 23 with 2 declared records
yields per-record size 8 and succeeds. -/
theorem slotRecordSizing_truncated_range (nstartbytes nrecs : Nat)
    (h : nrecs ≠ 0) :
    (slotRecordSizing nstartbytes nrecs = none ↔
      (slotRecsize nstartbytes nrecs < 7 ∨ 9 < slotRecsize nstartbytes nrecs)) ∧
    (∀ r, slotRecordSizing nstartbytes nrecs = some r →
      r = slotRecsize nstartbytes nrecs) ∧
    slotRecordSizing 23 2 = some 8 := by
  refine ⟨?_, ?_, by decide⟩
  · by_cases hr : 7 ≤ slotRecsize nstartbytes nrecs ∧ slotRecsize nstartbytes nrecs ≤ 9
    · simp only [slotRecordSizing, slotRecsize, if_neg h] at hr ⊢
      rw [if_pos hr]
      simp
      omega
    · simp only [slotRecordSizing, slotRecsize, if_neg h] at hr ⊢
      rw [if_neg hr]
      simp
      omega
  · intro r hsome
    simp only [slotRecordSizing, slotRecsize, if_neg h] at hsome ⊢
    by_cases hr : 7 ≤ Int.tdiv ((nstartbytes : Int) - (DWORD : Int) - 3) (nrecs : Int) ∧
        Int.tdiv ((nstartbytes : Int) - (DWORD : Int) - 3) (nrecs : Int) ≤ 9
    · rw [if_pos hr] at hsome
      exact (Option.some_inj.mp hsome).symm
    · rw [if_neg hr] at hsome
      cases hsome

/-- **C3 (amended) witness.** The concrete in-range derivation `23, 2 ↦ 8`. -/
theorem slotRecordSizing_truncated_range_witness :
    slotRecordSizing 23 2 = some 8 :=
  (slotRecordSizing_truncated_range 23 2 (by decide)).2.2

/-- **C4.** For every chat record: a delivery-mode flag of `0x10` yields mode
`"startup"` with no 4-byte mode code consumed — the message starts right after
the flag, whatever the following bytes are; any other flag reads a 4-byte mode
code `m`, mapped through the fixed table, an unmapped `m` resolving to a
direct message to player id `m - 3`. -/
theorem parse_chat_mode_resolution (st : PState) (d0 pid n1 n2 : Nat)
    (rest : List Nat) :
    ((∀ msg k, nulltermstr rest = some (msg, k) →
        parse_chat st (d0 :: pid :: n1 :: n2 :: 0x10 :: rest) =
          .ok ({ st with
                  events := st.events ++ [.chat st.clock pid "startup" msg] },
               b2i [n1, n2] + 4)) ∧
      (nulltermstr rest = none →
        parse_chat st (d0 :: pid :: n1 :: n2 :: 0x10 :: rest) = .error .encoding)) ∧
    (∀ flags, flags ≠ 0x10 → ∀ msg k, nulltermstr (rest.drop 4) = some (msg, k) →
        parse_chat st (d0 :: pid :: n1 :: n2 :: flags :: rest) =
          .ok ({ st with
                  events := st.events ++
                    [.chat st.clock pid
                      ((CHAT_MODES (b2i (rest.take 4))).getD
                        ("player" ++ toString (b2i (rest.take 4) - 0x3))) msg] },
               b2i [n1, n2] + 4)) := by
  refine ⟨⟨?_, ?_⟩, ?_⟩
  · intro msg k hmsg
    simp [parse_chat, slice, WORD, DWORD, hmsg, b2i]
  · intro hmsg
    simp [parse_chat, slice, WORD, DWORD, hmsg]
  · intro flags hflags msg k hmsg
    simp [parse_chat, slice, WORD, DWORD, hflags, hmsg, b2i]

/-- **C4 witness.** A flag of `0x10` resolves to `"startup"` even with
trailing bytes present, and the unmapped mode code `0x05` resolves to
`"player2"`. -/
theorem parse_chat_mode_resolution_witness :
    parse_chat ⟨[], 0, none⟩ [0x20, 7, 9, 0, 0x10, 0x41, 0] =
      .ok (⟨[.chat 0 7 "startup" "A"], 0, none⟩, 13) ∧
    parse_chat ⟨[], 0, none⟩ [0x20, 7, 9, 0, 0, 5, 0, 0, 0, 0x41, 0] =
      .ok (⟨[.chat 0 7 "player2" "A"], 0, none⟩, 13) :=
  ⟨((parse_chat_mode_resolution ⟨[], 0, none⟩ 0x20 7 9 0 [0x41, 0]).1.1 "A" 1
      (by decide)).trans (by rfl),
    ((parse_chat_mode_resolution ⟨[], 0, none⟩ 0x20 7 9 0
        [5, 0, 0, 0, 0x41, 0]).2 0 (by decide) "A" 1 (by decide)).trans (by rfl)⟩

/-- **C5.** At every position in the event stream whose tag byte is nonzero
and absent from the dispatch table, the parse fails with `UnknownBlockError`,
and the state — in particular the event list accumulated from the previously
completed records — is returned unchanged: no partial event is appended. -/
theorem parseLoop_unknown_tag (st : PState) (data : List Nat) (t fuel : Nat)
    (h0 : data[0]? = some t) (hne : t ≠ 0)
    (htab : t ∉ ([0x17, 0x1A, 0x1B, 0x1C, 0x1E, 0x1F, 0x20, 0x22, 0x23, 0x2F] :
        List Nat)) :
    parseLoop (fuel + 1) st data = (st, some (.unknownBlock t)) := by
  simp only [List.mem_cons, List.not_mem_nil, or_false, not_or] at htab
  obtain ⟨h17, h1A, h1B, h1C, h1E, h1F, h20, h22, h23, h2F⟩ := htab
  simp [parseLoop, dispatchStep, h0, hne, h17, h1A, h1B, h1C, h1E, h1F, h20,
    h22, h23, h2F]

/-- **C5 witness.** Tag `0xFF` aborts immediately with `UnknownBlockError`,
leaving the (empty) event list untouched. -/
theorem parseLoop_unknown_tag_witness :
    parseLoop 1 ⟨[], 0, none⟩ [0xFF] = (⟨[], 0, none⟩, some (.unknownBlock 0xFF)) :=
  parseLoop_unknown_tag ⟨[], 0, none⟩ [0xFF] 0xFF 0 rfl (by decide) (by decide)

/-- Helper for C6: when every framed block inflates to its declared length,
the loop of `File._read_blocks` returns the accumulator followed by the
concatenation of the decompressed payloads in block order. -/
lemma read_blocks_aux_all_good (inflate : List Nat → Option (List Nat)) :
    ∀ (n : Nat) (f acc : List Nat),
      (∀ blk ∈ blocksOf n f, goodBlock inflate blk) →
      read_blocks_aux inflate n f acc =
        some (acc ++ concatDecomp inflate (blocksOf n f)) := by
  intro n
  induction n with
  | zero =>
    intro f acc _
    simp [read_blocks_aux, blocksOf, concatDecomp]
  | succ n ih =>
    intro f acc hgood
    have hmem : ((f.drop (WORD + WORD + DWORD)).take (b2i (f.take WORD)),
        b2i (slice f WORD (WORD + WORD))) ∈ blocksOf (n + 1) f := by
      simp [blocksOf]
    obtain ⟨dat, hdat, hlen⟩ := hgood _ hmem
    simp only [read_blocks_aux]
    rw [hdat]
    show (if dat.length = b2i (slice f WORD (WORD + WORD)) then
        read_blocks_aux inflate n
          (f.drop (WORD + WORD + DWORD + b2i (f.take WORD))) (acc ++ dat)
      else none) = _
    rw [if_pos hlen]
    rw [ih _ (acc ++ dat) (fun blk hblk => hgood blk (by simp [blocksOf, hblk]))]
    simp only [blocksOf, concatDecomp, List.flatMap_cons, hdat, Option.getD_some,
      List.append_assoc]

/-- Helper for C6: one bad block — malformed DEFLATE data or a decompressed
length differing from the declared one — makes the loop fail. -/
lemma read_blocks_aux_bad (inflate : List Nat → Option (List Nat)) :
    ∀ (n : Nat) (f acc : List Nat),
      (∃ blk ∈ blocksOf n f, ¬goodBlock inflate blk) →
      read_blocks_aux inflate n f acc = none := by
  intro n
  induction n with
  | zero =>
    intro f acc hbad
    simp [blocksOf] at hbad
  | succ n ih =>
    intro f acc hbad
    obtain ⟨blk, hmem, hblk⟩ := hbad
    simp only [blocksOf, List.mem_cons] at hmem
    simp only [read_blocks_aux]
    cases hdat : inflate ((f.drop (WORD + WORD + DWORD)).take (b2i (f.take WORD))) with
    | none => rfl
    | some dat =>
      show (if dat.length = b2i (slice f WORD (WORD + WORD)) then
          read_blocks_aux inflate n
            (f.drop (WORD + WORD + DWORD + b2i (f.take WORD))) (acc ++ dat)
        else none) = none
      by_cases hlen : dat.length = b2i (slice f WORD (WORD + WORD))
      · rw [if_pos hlen]
        rcases hmem with hfst | htail
        · refine absurd ?_ hblk
          rw [hfst]
          exact ⟨dat, hdat, hlen⟩
        · exact ih _ _ ⟨blk, htail, hblk⟩
      · rw [if_neg hlen]

/-- **C6.** For every block in the block stream, a decompressed payload whose
length differs from the block's declared expected length (or DEFLATE data the
inflater rejects) makes decoding fail with `DecompressionError`; when all
declared blocks succeed, their decompressed payloads are concatenated in block
order into the single logical buffer handed to the startup-record parser. -/
theorem read_blocks_length_check_and_concat
    (inflate : List Nat → Option (List Nat)) (nblocks : Nat) (f : List Nat) :
    ((∃ blk ∈ blocksOf nblocks f, ¬goodBlock inflate blk) →
        read_blocks inflate nblocks f = none) ∧
    ((∀ blk ∈ blocksOf nblocks f, goodBlock inflate blk) →
        read_blocks inflate nblocks f =
          some (concatDecomp inflate (blocksOf nblocks f))) := by
  constructor
  · intro hbad
    exact read_blocks_aux_bad inflate nblocks f [] hbad
  · intro hgood
    rw [read_blocks, read_blocks_aux_all_good inflate nblocks f [] hgood]
    simp

/-- **C6 witness.** One well-formed block under the identity inflater: the
declared length matches and the payload is returned as the logical buffer. -/
theorem read_blocks_length_check_and_concat_witness :
    read_blocks (fun l => some l) 1 [2, 0, 2, 0, 0, 0, 0, 0, 0xAB, 0xCD] =
      some [0xAB, 0xCD] := by
  have h := (read_blocks_length_check_and_concat (fun l => some l) 1
      [2, 0, 2, 0, 0, 0, 0, 0, 0xAB, 0xCD]).2 ?_
  · exact h.trans (by rfl)
  · intro blk hblk
    simp only [blocksOf, List.mem_cons, List.not_mem_nil, or_false] at hblk
    subst hblk
    exact ⟨[0xAB, 0xCD], by rfl, by rfl⟩

/-- **C9.** The first `LeftGame` event parsed in a replay — decoded while no
previous disconnect event exists — has its is-consecutive flag false, whatever
its 4-byte sequence-flag bytes hold. -/
theorem first_leftGame_inc_false (st : PState) (data : List Nat)
    (h : st.lastleft = none) (st' : PState) (off : Nat)
    (hok : parse_leave_game st data = .ok (st', off)) :
    ∃ lg : LeftGameData,
      st'.events = st.events ++ [.leftGame st.clock lg] ∧ lg.inc = false ∧
      lg.unknownflag = b2i (slice data 10 (10 + DWORD)) := by
  unfold parse_leave_game at hok
  rw [h] at hok
  cases hpid : data[1 + DWORD]? with
  | none => rw [hpid] at hok; cases hok
  | some pid =>
    rw [hpid] at hok
    simp only [Except.ok.injEq, Prod.mk.injEq] at hok
    obtain ⟨hst, _⟩ := hok
    subst hst
    exact ⟨_, rfl, rfl, rfl⟩

/-- **C9 witness.** A concrete first disconnect record with sequence flag 9
produces an event with the is-consecutive flag false. -/
theorem first_leftGame_inc_false_witness :
    ∃ lg : LeftGameData,
      (⟨[Event.leftGame 0 ⟨3, "remote", 7, false, 9, none⟩], 0, some 0⟩ :
          PState).events =
        ([] : List Event) ++ [.leftGame 0 lg] ∧ lg.inc = false ∧
      lg.unknownflag =
        b2i (slice [0x17, 1, 0, 0, 0, 3, 7, 0, 0, 0, 9, 0, 0, 0] 10 (10 + DWORD)) :=
  first_leftGame_inc_false ⟨[], 0, none⟩
    [0x17, 1, 0, 0, 0, 3, 7, 0, 0, 0, 9, 0, 0, 0] rfl
    ⟨[Event.leftGame 0 ⟨3, "remote", 7, false, 9, none⟩], 0, some 0⟩ 14 (by rfl)

/-- **C7 counterexample.** For `[0x61, 0x00]` the first zero byte is at index
1, so the claimed consumed length (index plus one) would be 2, but
`nulltermstr` returns consumed length 1: the terminator is not included. -/
theorem nulltermstr_consumed_counterexample :
    nulltermstr [0x61, 0x00] = some ("a", 1) ∧
    nulltermstr [0x61, 0x00] ≠ some ("a", 2) := by
  constructor <;> decide

/-- **C7 (amended).** For every byte span containing a zero byte,
`nulltermstr` returns the UTF-8 decoding of the bytes strictly before the
first zero byte together with a consumed length equal to the *index* of that
first zero byte (the terminator is not counted; callers advance past it
separately), and fails (`EncodingError`) when those bytes are not valid
UTF-8. -/
theorem nulltermstr_first_zero (b : List Nat) (j : Nat)
    (hj : b[j]? = some 0) (hfirst : ∀ k, k < j → b[k]? ≠ some 0) :
    nulltermstr b = (utf8Decode (b.take j)).map fun s => (s, (j : Int)) := by
  have hfind : pyFindAux b 0 = some j := pyFindAux_first 0 b j hj hfirst
  have hpf : pyFind b 0 = (j : Int) := by unfold pyFind; rw [hfind]
  have hslice : pySliceTo b (j : Int) = b.take j := by
    unfold pySliceTo
    rw [if_neg (by omega : ¬(j : Int) < 0)]
    simp
  show (utf8Decode (pySliceTo b (pyFind b 0))).map (fun s => (s, pyFind b 0)) = _
  rw [hpf, hslice]

/-- **C7 (amended) witness.** `[0x68, 0x69, 0x00]` decodes to `"hi"` with
consumed length 2 (the index of the zero byte). -/
theorem nulltermstr_first_zero_witness :
    nulltermstr [0x68, 0x69, 0x00] = some ("hi", 2) :=
  (nulltermstr_first_zero [0x68, 0x69, 0x00] 2 (by decide) (by decide)).trans
    (by decide)

/-- Helper for C8: when some player's id matches, the lookup returns a
matching player (the positional fast path or the first match of the scan). -/
lemma filePlayer_of_exists (players : List Player) (slot_records : List SlotRecord)
    (pid : Nat) (hex : ∃ p ∈ players, p.id = (pid : Int)) :
    ∃ q, q ∈ players ∧ q.id = (pid : Int) ∧
      filePlayer players slot_records pid = some (.inl q) := by
  obtain ⟨p0, hp0, hp0id⟩ := hex
  have hsome : (players.find? (fun p => p.id == (pid : Int))).isSome :=
    List.find?_isSome.mpr ⟨p0, hp0, by simpa using hp0id⟩
  obtain ⟨r, hr⟩ := Option.isSome_iff_exists.mp hsome
  unfold filePlayer
  cases hp : players[pid]? with
  | some p =>
    by_cases hid : p.id = (pid : Int)
    · exact ⟨p, List.getElem?_mem hp, hid, by simp [hid]⟩
    · refine ⟨r, List.mem_of_find?_eq_some hr, by simpa using List.find?_some hr, ?_⟩
      simp [hid, hr]
  | none =>
    refine ⟨r, List.mem_of_find?_eq_some hr, by simpa using List.find?_some hr, ?_⟩
    simp [hr]

/-- Helper for C8: when no player's id matches, the lookup falls through to
positional indexing into the slot-record list. -/
lemma filePlayer_of_no_match (players : List Player) (slot_records : List SlotRecord)
    (pid : Nat) (hall : ∀ p ∈ players, p.id ≠ (pid : Int)) :
    filePlayer players slot_records pid = (slot_records[pid]?).map .inr := by
  have hfind : players.find? (fun p => p.id == (pid : Int)) = none :=
    List.find?_eq_none.mpr (fun x hx => by simpa using hall x hx)
  unfold filePlayer
  cases hp : players[pid]? with
  | none => simp [hfind]
  | some p =>
    have hid : p.id ≠ (pid : Int) := hall p (List.getElem?_mem hp)
    simp [hid, hfind]

/-- **C8 counterexample.** A `SlotRecord` whose `player_id` is 5 exists while
no `Player` has id 5, yet `player(5)` is an error (and `player_name(5)`
propagates it): the source indexes `slot_records` positionally by the queried
id and never consults the slot's own `player_id`, so the id resolves to no
`Player` and, per the claim, to a `SlotRecord` — and still errors. -/
theorem filePlayer_positional_counterexample :
    (∃ s ∈ ([{ player_id := 5 }] : List SlotRecord), s.player_id = 5) ∧
    (∀ p ∈ ([] : List Player), p.id ≠ 5) ∧
    filePlayer [] [{ player_id := 5 }] 5 = none ∧
    filePlayerName [] [{ player_id := 5 }] 5 = none := by
  refine ⟨⟨{ player_id := 5 }, by simp, rfl⟩, by simp, by rfl, by rfl⟩

/-- **C8 (amended).** `playerNameById(id)` returns the player's name when a
`Player` with matching id exists; when none matches, the slot-record list is
indexed *positionally* by the id (the slot's own `player_id` field is never
consulted): a valid position yields `"observer"`, and `playerById(id)` (hence
`playerNameById(id)`) is an error exactly when no `Player` matches and the id
is not a valid position in the slot-record list. -/
theorem filePlayer_lookup (players : List Player) (slot_records : List SlotRecord)
    (pid : Nat) :
    ((∃ p ∈ players, p.id = (pid : Int)) →
      ∃ p, p ∈ players ∧ p.id = (pid : Int) ∧
        filePlayerName players slot_records pid = some p.name) ∧
    ((∀ p ∈ players, p.id ≠ (pid : Int)) → pid < slot_records.length →
      filePlayerName players slot_records pid = some "observer") ∧
    ((∀ p ∈ players, p.id ≠ (pid : Int)) → slot_records.length ≤ pid →
      filePlayer players slot_records pid = none ∧
      filePlayerName players slot_records pid = none) := by
  refine ⟨?_, ?_, ?_⟩
  · intro hex
    obtain ⟨q, hq, hqid, hfp⟩ := filePlayer_of_exists players slot_records pid hex
    refine ⟨q, hq, hqid, ?_⟩
    unfold filePlayerName
    rw [hfp]
  · intro hall hlt
    unfold filePlayerName
    rw [filePlayer_of_no_match players slot_records pid hall,
      List.getElem?_eq_getElem hlt]
    rfl
  · intro hall hge
    have hfp : filePlayer players slot_records pid = none := by
      rw [filePlayer_of_no_match players slot_records pid hall,
        List.getElem?_eq_none hge]
      rfl
    exact ⟨hfp, by unfold filePlayerName; rw [hfp]⟩

/-- **C8 (amended) witness.** A player with id 2 is found by name. -/
theorem filePlayer_lookup_witness :
    filePlayerName [({ id := 2, name := "bob" } : Player)] [] 2 = some "bob" := by
  obtain ⟨p, hp, _, hname⟩ :=
    (filePlayer_lookup [{ id := 2, name := "bob" }] [] 2).1
      ⟨{ id := 2, name := "bob" }, by simp, by decide⟩
  have hpe : p = { id := 2, name := "bob" } := by simpa using hp
  rw [hpe] at hname
  exact hname

/-- Helper for C10: `setNextAt` only rewires a `next` reference and keeps
every event's timestamp. -/
lemma setNextAt_map_time : ∀ (evs : List Event) (i k : Nat),
    (setNextAt evs i k).map Event.time = evs.map Event.time := by
  intro evs
  induction evs with
  | nil => intro i k; rfl
  | cons e rest ih =>
    intro i k
    cases i with
    | zero => cases e <;> rfl
    | succ i => simp [setNextAt, ih]

/-- Helper for C10: appending one event stamped with the current clock
preserves the invariant, whatever happens to the `_lastleft` cursor. -/
lemma clockInv_append (st : PState) (e : Event) (he : Event.time e = st.clock)
    (h : ClockInv st) (ll : Option Nat) :
    ClockInv ⟨st.events ++ [e], st.clock, ll⟩ := by
  obtain ⟨hpw, hbd⟩ := h
  constructor
  · show List.Pairwise (· ≤ ·) ((st.events ++ [e]).map Event.time)
    rw [List.map_append, List.pairwise_append]
    refine ⟨hpw, by simp, ?_⟩
    intro a ha b hb
    simp only [List.map_cons, List.map_nil, List.mem_singleton] at hb
    subst hb
    rw [he]
    exact hbd a ha
  · intro t ht
    show t ≤ st.clock
    rw [List.map_append, List.mem_append] at ht
    rcases ht with ht | ht
    · exact hbd t ht
    · simp only [List.map_cons, List.map_nil, List.mem_singleton] at ht
      subst ht
      rw [he]

/-- Helper for C10: appending one event and then rewiring a `next` reference
preserves the invariant. -/
lemma clockInv_append_setNext (st : PState) (e : Event)
    (he : Event.time e = st.clock) (h : ClockInv st) (i k : Nat) (ll : Option Nat) :
    ClockInv ⟨setNextAt (st.events ++ [e]) i k, st.clock, ll⟩ := by
  have happ := clockInv_append st e he h ll
  constructor
  · show List.Pairwise (· ≤ ·) ((setNextAt (st.events ++ [e]) i k).map Event.time)
    rw [setNextAt_map_time]
    exact happ.1
  · intro t ht
    rw [show (⟨setNextAt (st.events ++ [e]) i k, st.clock, ll⟩ : PState).events.map
        Event.time = (st.events ++ [e]).map Event.time from setNextAt_map_time _ i k] at ht
    exact happ.2 t ht

/-- Helper for C10: the modelled action decoding only appends events stamped
with the current clock and never touches the clock. -/
lemma parse_actions_inv : ∀ (block : List Nat) (st : PState) (pid : Nat),
    ClockInv st →
    ClockInv (parse_actions st pid block) ∧
      (parse_actions st pid block).clock = st.clock := by
  intro block
  induction block with
  | nil => intro st pid h; exact ⟨h, rfl⟩
  | cons aid rest ih =>
    intro st pid h
    by_cases ha : aid = 0x01
    · have h1 : ClockInv { st with events := st.events ++ [.pause st.clock pid] } :=
        clockInv_append st (.pause st.clock pid) rfl h st.lastleft
      obtain ⟨h2, h3⟩ :=
        ih { st with events := st.events ++ [.pause st.clock pid] } pid h1
      simp only [parse_actions, ha, if_pos]
      exact ⟨h2, h3⟩
    · simp only [parse_actions, if_neg ha]
      exact ⟨h, trivial⟩

/-- Helper for C10: the time-slot command loop preserves the invariant and
never changes the clock. -/
lemma parse_cmddata_inv (cmd : List Nat) (st : PState) (hst : ClockInv st) :
    ClockInv (parse_cmddata st cmd) ∧ (parse_cmddata st cmd).clock = st.clock := by
  suffices hgen : ∀ (n : Nat) (cmd : List Nat), cmd.length ≤ n → ∀ st, ClockInv st →
      ClockInv (parse_cmddata st cmd) ∧ (parse_cmddata st cmd).clock = st.clock by
    exact hgen cmd.length cmd le_rfl st hst
  intro n
  induction n with
  | zero =>
    intro cmd hlen st h
    have hnil : cmd = [] := List.length_eq_zero.mp (Nat.le_zero.mp hlen)
    subst hnil
    simp only [parse_cmddata]
    exact ⟨h, trivial⟩
  | succ n ih =>
    intro cmd hlen st h
    cases cmd with
    | nil =>
      simp only [parse_cmddata]
      exact ⟨h, trivial⟩
    | cons pid rest =>
      simp only [parse_cmddata]
      obtain ⟨h1, h2⟩ :=
        parse_actions_inv ((rest.drop WORD).take (b2i (rest.take WORD))) st pid h
      obtain ⟨h3, h4⟩ := ih ((rest.drop WORD).drop (b2i (rest.take WORD)))
        (by simp only [List.length_drop, List.length_cons] at hlen ⊢; omega) _ h1
      exact ⟨h3, h4.trans h2⟩

/-- Helper for C10: a successful time-slot record preserves the invariant
(the clock only grows by the unsigned delta). -/
lemma parse_time_slot_inv (st : PState) (data : List Nat) (st' : PState)
    (off : Nat) (hok : parse_time_slot st data = .ok (st', off))
    (h : ClockInv st) : ClockInv st' := by
  unfold parse_time_slot at hok
  simp only [Except.ok.injEq, Prod.mk.injEq] at hok
  obtain ⟨hst, _⟩ := hok
  subst hst
  obtain ⟨h1, _⟩ := parse_cmddata_inv
    (slice data (1 + WORD + WORD) (b2i (slice data 1 (1 + WORD)) + 3)) st h
  constructor
  · exact h1.1
  · intro t ht
    exact le_trans (h1.2 t ht) (Nat.le_add_right _ _)

/-- Helper for C10: a successful chat record appends one event at the
current clock. -/
lemma parse_chat_inv (st : PState) (data : List Nat) (st' : PState) (off : Nat)
    (hok : parse_chat st data = .ok (st', off)) (h : ClockInv st) :
    ClockInv st' := by
  unfold parse_chat at hok
  split at hok
  · exact Except.noConfusion hok
  · split at hok
    · exact Except.noConfusion hok
    · dsimp only [] at hok
      split at hok
      all_goals
        first
          | exact Except.noConfusion hok
          | (simp only [Except.ok.injEq, Prod.mk.injEq] at hok
             obtain ⟨hst, _⟩ := hok
             subst hst
             refine clockInv_append st _ ?_ h st.lastleft
             rfl)

/-- Helper for C10: a successful countdown record appends one event at the
current clock. -/
lemma parse_countdown_inv (st : PState) (data : List Nat) (st' : PState)
    (off : Nat) (hok : parse_countdown st data = .ok (st', off))
    (h : ClockInv st) : ClockInv st' := by
  unfold parse_countdown at hok
  simp only [Except.ok.injEq, Prod.mk.injEq] at hok
  obtain ⟨hst, _⟩ := hok
  subst hst
  refine clockInv_append st _ ?_ h st.lastleft
  rfl

/-- Helper for C10: a successful disconnect record appends one event at the
current clock and only rewires a `next` reference. -/
lemma parse_leave_game_inv (st : PState) (data : List Nat) (st' : PState)
    (off : Nat) (hok : parse_leave_game st data = .ok (st', off))
    (h : ClockInv st) : ClockInv st' := by
  unfold parse_leave_game at hok
  split at hok
  · exact Except.noConfusion hok
  · simp only [Except.ok.injEq, Prod.mk.injEq] at hok
    obtain ⟨hst, _⟩ := hok
    subst hst
    cases hll : st.lastleft with
    | none =>
      simp only [hll]
      refine clockInv_append st _ ?_ h _
      rfl
    | some i =>
      simp only [hll]
      refine clockInv_append_setNext st _ ?_ h i st.events.length _
      rfl

/-- Helper for C10: every successfully dispatched record preserves the
invariant. -/
lemma dispatchStep_inv (st : PState) (data : List Nat) (blockid : Nat)
    (st' : PState) (off : Nat)
    (hok : dispatchStep st data blockid = .ok (st', off)) (h : ClockInv st) :
    ClockInv st' := by
  unfold dispatchStep at hok
  by_cases h17 : blockid = 0x17
  · rw [if_pos h17] at hok
    exact parse_leave_game_inv _ _ _ _ hok h
  rw [if_neg h17] at hok
  by_cases h1A : blockid = 0x1A
  · rw [if_pos h1A] at hok
    simp only [Except.ok.injEq, Prod.mk.injEq] at hok
    obtain ⟨hst, _⟩ := hok
    subst hst
    exact h
  rw [if_neg h1A] at hok
  by_cases h1B : blockid = 0x1B
  · rw [if_pos h1B] at hok
    simp only [Except.ok.injEq, Prod.mk.injEq] at hok
    obtain ⟨hst, _⟩ := hok
    subst hst
    exact h
  rw [if_neg h1B] at hok
  by_cases h1C : blockid = 0x1C
  · rw [if_pos h1C] at hok
    simp only [Except.ok.injEq, Prod.mk.injEq] at hok
    obtain ⟨hst, _⟩ := hok
    subst hst
    exact h
  rw [if_neg h1C] at hok
  by_cases h1E : blockid = 0x1E
  · rw [if_pos h1E] at hok
    exact parse_time_slot_inv _ _ _ _ hok h
  rw [if_neg h1E] at hok
  by_cases h1F : blockid = 0x1F
  · rw [if_pos h1F] at hok
    exact parse_time_slot_inv _ _ _ _ hok h
  rw [if_neg h1F] at hok
  by_cases h20 : blockid = 0x20
  · rw [if_pos h20] at hok
    exact parse_chat_inv _ _ _ _ hok h
  rw [if_neg h20] at hok
  by_cases h22 : blockid = 0x22
  · rw [if_pos h22] at hok
    simp only [Except.ok.injEq, Prod.mk.injEq] at hok
    obtain ⟨hst, _⟩ := hok
    subst hst
    exact h
  rw [if_neg h22] at hok
  by_cases h23 : blockid = 0x23
  · rw [if_pos h23] at hok
    simp only [Except.ok.injEq, Prod.mk.injEq] at hok
    obtain ⟨hst, _⟩ := hok
    subst hst
    exact h
  rw [if_neg h23] at hok
  by_cases h2F : blockid = 0x2F
  · rw [if_pos h2F] at hok
    exact parse_countdown_inv _ _ _ _ hok h
  rw [if_neg h2F] at hok
  exact Except.noConfusion hok

/-- Helper for C10: the dispatch loop preserves the invariant, whether it
ends at the stream terminator, on an error, or out of fuel. -/
lemma parseLoop_inv : ∀ (fuel : Nat) (st : PState) (data : List Nat),
    ClockInv st → ClockInv (parseLoop fuel st data).1 := by
  intro fuel
  induction fuel with
  | zero => intro st data h; exact h
  | succ fuel ih =>
    intro st data h
    simp only [parseLoop]
    cases h0 : data[0]? with
    | none => exact h
    | some blockid =>
      show ClockInv ((if blockid = 0 then (st, none)
        else
          match dispatchStep st data blockid with
          | .error e => (st, some e)
          | .ok (st', off) => parseLoop fuel st' (data.drop off)).1)
      by_cases hz : blockid = 0
      · rw [if_pos hz]
        exact h
      · rw [if_neg hz]
        cases hd : dispatchStep st data blockid with
        | error e =>
          show ClockInv (st, some e).1
          exact h
        | ok p =>
          obtain ⟨st', off⟩ := p
          show ClockInv (parseLoop fuel st' (data.drop off)).1
          exact ih st' (data.drop off) (dispatchStep_inv st data blockid st' off hd h)

/-- **C10.** Event timestamps are non-decreasing in sequence order: the
running clock starts at 0 and is only ever increased (by the unsigned 2-byte
delta of a time-advance record), so for all event indices `i ≤ j` of a parse
the timestamp of `events[i]` is at most the timestamp of `events[j]`. -/
theorem event_times_monotone (data : List Nat)
    (i j : Fin (parse_blocks_run data).1.events.length)
    (hij : (i : Nat) ≤ (j : Nat)) :
    ((parse_blocks_run data).1.events.get i).time ≤
      ((parse_blocks_run data).1.events.get j).time := by
  have hinit : ClockInv ⟨[], 0, none⟩ := by
    constructor
    · exact List.Pairwise.nil
    · intro t ht
      simp at ht
  have hinv : ClockInv (parse_blocks_run data).1 :=
    parseLoop_inv (data.length + 1) ⟨[], 0, none⟩ data hinit
  rcases Nat.lt_or_ge (i : Nat) (j : Nat) with hlt | hge
  · have hpw := hinv.1
    rw [List.pairwise_iff_getElem] at hpw
    have hi : (i : Nat) < ((parse_blocks_run data).1.events.map Event.time).length := by
      rw [List.length_map]
      exact i.2
    have hj : (j : Nat) < ((parse_blocks_run data).1.events.map Event.time).length := by
      rw [List.length_map]
      exact j.2
    have hg := hpw (i : Nat) (j : Nat) hi hj hlt
    simpa [List.getElem_map, List.get_eq_getElem] using hg
  · have hij' : (i : Nat) = (j : Nat) := Nat.le_antisymm hij hge
    have : i = j := Fin.ext hij'
    subst this
    exact Nat.le_refl _

/-- **C10 witness.** A concrete stream of two countdown records: the first
event's timestamp is at most the second's. -/
theorem event_times_monotone_witness :
    (((parse_blocks_run
        [0x2F, 0, 0, 0, 0, 5, 0, 0, 0, 0x2F, 1, 0, 0, 0, 9, 0, 0, 0, 0]).1.events.get
        ⟨0, by decide⟩)).time ≤
      (((parse_blocks_run
        [0x2F, 0, 0, 0, 0, 5, 0, 0, 0, 0x2F, 1, 0, 0, 0, 9, 0, 0, 0, 0]).1.events.get
        ⟨1, by decide⟩)).time :=
  event_times_monotone [0x2F, 0, 0, 0, 0, 5, 0, 0, 0, 0x2F, 1, 0, 0, 0, 9, 0, 0, 0, 0]
    ⟨0, by decide⟩ ⟨1, by decide⟩ (by decide)

end W3G

